import Mathlib

/-!
Verification of the book-crawling repository's Crawl Orchestration and
Rating Normalization Engine against its specification.

The web frontend (`web/src`), the persistence schema
(`supabase/migration.sql`) and the development log (`docs/devlog.md`) are
present in the repository; the Python crawler backend (matcher,
normalizer, orchestrator, cache gateway) is not, so those components are
modelled from the specification, as marked on each definition.
Numbers are modelled as rationals.
-/

namespace BookCrawl

/-! ## Data model

`PlatformRating` and the search summary follow `web/src/lib/api.ts`
(interfaces `PlatformRating` and `SearchResult.search`) and the columns of
`supabase/migration.sql`. -/

structure PlatformRating where
  platform : String
  rating : Option ℚ
  rating_scale : ℚ
  normalized_rating : Option ℚ
  review_count : ℕ
  book_title : String
  url : String
  crawled_at : String
deriving DecidableEq, Repr

structure SearchSummary where
  query : String
  avg_rating : Option ℚ
  total_reviews : ℕ
  platform_count : ℕ
deriving DecidableEq, Repr

/-! ## Rating Normalizer

Modelled from the spec: the crawler backend's normalizer is not in the
repository.  Spec 4.2: `normalize(raw_rating: optional number, scale:
number) -> optional number in [0,10]`; `None -> None`; otherwise linear
rescale to a 10-point axis, clamped. -/

def normalize (raw : Option ℚ) (scale : ℚ) : Option ℚ :=
  raw.map (fun r => max 0 (min 10 (r * (10 / scale))))

/-- Modelled from the spec: construction of a Platform Rating record, whose
`normalized_rating` field is computed by `normalize` from the raw rating and
the platform's scale (spec section 3, Platform Rating invariant). -/
def mkPlatformRating (platform : String) (rating : Option ℚ) (scale : ℚ)
    (review_count : ℕ) (book_title url crawled_at : String) : PlatformRating :=
  ⟨platform, rating, scale, normalize rating scale, review_count, book_title, url, crawled_at⟩

theorem normalize_none (scale : ℚ) : normalize none scale = none := rfl

theorem normalize_some (r scale : ℚ) :
    normalize (some r) scale = some (max 0 (min 10 (r * (10 / scale)))) := rfl

theorem normalize_mem_range (r scale x : ℚ) (h : normalize (some r) scale = some x) :
    0 ≤ x ∧ x ≤ 10 := by
  rw [normalize_some] at h
  cases h
  constructor
  · exact le_max_left 0 _
  · exact max_le (by norm_num) (min_le_left 10 _)

theorem normalize_id_of_range (r : ℚ) (h0 : 0 ≤ r) (h10 : r ≤ 10) :
    normalize (some r) 10 = some r := by
  rw [normalize_some]
  have hr : r * (10 / 10) = r := by norm_num
  rw [hr, min_eq_right h10, max_eq_right h0]

/-- C3 counterexample: the claim states `normalize(r, 10) = r` exactly for
every raw rating, but the normalizer clamps to `[0, 10]`, so the raw rating
`11` on the 10-point scale is mapped to `10`, not `11`. -/
theorem c3_normalize_identity_counterexample :
    normalize (some 11) 10 ≠ some 11 ∧ normalize (some 11) 10 = some 10 := by
  have h : normalize (some 11) 10 = some 10 := by
    rw [normalize_some]
    have h1 : (11:ℚ) * (10/10) = 11 := by norm_num
    rw [h1, min_eq_left (by norm_num : (10:ℚ) ≤ 11),
      max_eq_right (by norm_num : (0:ℚ) ≤ 10)]
  refine ⟨?_, h⟩
  intro hc
  rw [h] at hc
  exact absurd (Option.some.inj hc) (by norm_num)

/-- C3 (amended): for every valid (positive) scale, `normalize` sends an
absent rating to an absent rating; a present rating is linearly rescaled to
the 10-point axis and clamped to `[0, 10]` (hence the output always lies in
`[0, 10]`); the identity case `scale = 10` is an exact passthrough for raw
ratings within `[0, 10]`; and `normalized_rating` is present in a built
Platform Rating if and only if `raw_rating` is present. -/
theorem c3_normalize_spec (scale : ℚ) (hpos : 0 < scale) :
    normalize none scale = none ∧
    (∀ r : ℚ, normalize (some r) scale = some (max 0 (min 10 (r * (10 / scale))))) ∧
    (∀ r x : ℚ, normalize (some r) scale = some x → 0 ≤ x ∧ x ≤ 10) ∧
    (∀ r : ℚ, 0 ≤ r → r ≤ 10 → normalize (some r) 10 = some r) ∧
    (∀ platform rating rc title url at_,
      (mkPlatformRating platform rating scale rc title url at_).normalized_rating.isSome
        = rating.isSome) := by
  refine ⟨normalize_none scale, fun r => normalize_some r scale,
    fun r x h => normalize_mem_range r scale x h,
    fun r h0 h10 => normalize_id_of_range r h0 h10, ?_⟩
  intro platform rating rc title url at_
  cases rating <;> rfl

/-- Witness for `c3_normalize_spec` at scale 5 (the Goodreads scale) and
raw rating 4: the hypothesis `0 < 5` is discharged concretely and the
normalizer maps `some 4` to `some 8`. -/
theorem c3_normalize_spec_witness :
    (0:ℚ) < 5 ∧ normalize (some 4) 5 = some 8 := by
  constructor
  · norm_num
  · have h := (c3_normalize_spec 5 (by norm_num)).2.1 4
    rw [h]
    norm_num

/-! ## Adapter outcomes and the Search Summary accumulator

Modelled from the spec: the orchestrator's per-adapter terminal outcomes
(spec 4.3 state machine) and the Search Summary, "created empty at
orchestration start, updated monotonically as each Platform Rating
arrives" (spec section 3). -/

inductive CrawlOutcome where
  | success (r : PlatformRating)
  | noMatch
  | failed
  | timedOut
deriving DecidableEq, Repr

/-- Modelled from the spec: only `SUCCEEDED` outcomes are emitted as
Platform Ratings; `NO_MATCH`, `FAILED` and `TIMED_OUT` are not (spec 4.3,
emission discipline). -/
def emittedRating : CrawlOutcome → Option PlatformRating
  | .success r => some r
  | .noMatch => none
  | .failed => none
  | .timedOut => none

structure SummaryAcc where
  count : ℕ
  reviews : ℕ
  ratingSum : ℚ
  ratingCount : ℕ
deriving DecidableEq, Repr

def emptyAcc : SummaryAcc := ⟨0, 0, 0, 0⟩

/-- Modelled from the spec: folding one emitted Platform Rating into the
running summary; platforms whose normalized rating is absent are excluded
from both numerator and denominator of the average (spec section 3). -/
def foldRating (acc : SummaryAcc) (r : PlatformRating) : SummaryAcc :=
  match r.normalized_rating with
  | some v => ⟨acc.count + 1, acc.reviews + r.review_count, acc.ratingSum + v, acc.ratingCount + 1⟩
  | none => ⟨acc.count + 1, acc.reviews + r.review_count, acc.ratingSum, acc.ratingCount⟩

/-- Modelled from the spec: freezing the accumulator into the final Search
Summary; the average is `None` when no normalized rating was folded in. -/
def finalizeSummary (q : String) (acc : SummaryAcc) : SearchSummary :=
  ⟨q, if acc.ratingCount = 0 then none else some (acc.ratingSum / acc.ratingCount),
    acc.reviews, acc.count⟩

def summarize (q : String) (rs : List PlatformRating) : SearchSummary :=
  finalizeSummary q (rs.foldl foldRating emptyAcc)

theorem foldl_foldRating (rs : List PlatformRating) (acc : SummaryAcc) :
    rs.foldl foldRating acc =
      ⟨acc.count + rs.length,
       acc.reviews + (rs.map PlatformRating.review_count).sum,
       acc.ratingSum + (rs.filterMap PlatformRating.normalized_rating).sum,
       acc.ratingCount + (rs.filterMap PlatformRating.normalized_rating).length⟩ := by
  induction rs generalizing acc with
  | nil => simp
  | cons r rs ih =>
    cases hr : r.normalized_rating with
    | none =>
      rw [List.foldl_cons, ih]
      simp [foldRating, hr]
      omega
    | some v =>
      rw [List.foldl_cons, ih]
      simp [foldRating, hr]
      repeat' apply And.intro
      all_goals first | omega | ring | trivial

/-- C4: for every completed Search Summary, `platform_count` is the number
of emitted Platform Ratings, `total_reviews` is the sum of their review
counts, `avg_rating` is the arithmetic mean of their present
`normalized_rating` values (`None` when there are none, in particular when
no rating was emitted), and a run in which every adapter outcome is a
failure, timeout or no-match yields `avg_rating = None`,
`total_reviews = 0`, `platform_count = 0`. -/
theorem c4_summary_spec (q : String) (rs : List PlatformRating) :
    (summarize q rs).platform_count = rs.length ∧
    (summarize q rs).total_reviews = (rs.map PlatformRating.review_count).sum ∧
    (rs.filterMap PlatformRating.normalized_rating = [] →
      (summarize q rs).avg_rating = none) ∧
    (rs.filterMap PlatformRating.normalized_rating ≠ [] →
      (summarize q rs).avg_rating =
        some ((rs.filterMap PlatformRating.normalized_rating).sum /
          ((rs.filterMap PlatformRating.normalized_rating).length : ℚ))) ∧
    (∀ outs : List CrawlOutcome, (∀ o ∈ outs, ∀ r, o ≠ CrawlOutcome.success r) →
      summarize q (outs.filterMap emittedRating) = ⟨q, none, 0, 0⟩) := by
  have hfold := foldl_foldRating rs emptyAcc
  refine ⟨?_, ?_, ?_, ?_, ?_⟩
  · rw [summarize, hfold]
    simp [finalizeSummary, emptyAcc]
  · rw [summarize, hfold]
    simp [finalizeSummary, emptyAcc]
  · intro hvs
    rw [summarize, hfold]
    simp [finalizeSummary, emptyAcc, hvs]
  · intro hvs
    rw [summarize, hfold]
    have hlen : (rs.filterMap PlatformRating.normalized_rating).length ≠ 0 := by
      simpa [List.length_eq_zero] using hvs
    simp [finalizeSummary, emptyAcc, hlen]
  · intro outs houts
    have hnil : outs.filterMap emittedRating = [] := by
      rw [List.filterMap_eq_nil_iff]
      intro o ho
      cases o with
      | success r => exact absurd rfl (houts _ ho r)
      | noMatch => rfl
      | failed => rfl
      | timedOut => rfl
    rw [hnil]
    rfl

/-! ## Result Matcher

Modelled from the spec: the crawler backend's matcher is not in the
repository.  Spec 4.1: tokenize the query by whitespace, normalize tokens
whitespace-insensitively and case-insensitively, exclude candidates whose
title contains an exclusion marker (bundle/box-set/edition markers, per
`docs/devlog.md`: bracketed set notation, "에디션"/"edition", multi-count
notation like "3종"), score remaining candidates by token containment over
the title (or title+author concatenation), return the highest-scoring one
with ties broken by original order, and `NoMatch` unless all query tokens
are matched. -/

structure RawCandidate where
  title : String
  author : Option String
  rating : Option ℚ
  review_count : Option ℕ
  url : String
deriving DecidableEq, Repr

/-- Case-normalize and drop all whitespace from a string (the
whitespace-insensitive normalization of spec 4.1: "밝은밤" and "밝은 밤"
become the same character sequence). -/
def normChars (s : String) : List Char :=
  (s.toList.map Char.toLower).filter (fun c => c ≠ ' ')

/-- `leadSeg n h` holds when `n` is an initial segment of `h`. -/
def leadSeg : List Char → List Char → Bool
  | [], _ => true
  | _ :: _, [] => false
  | a :: as, b :: bs => a == b && leadSeg as bs

/-- `hasSub n h` holds when `n` occurs contiguously inside `h`. -/
def hasSub (n : List Char) : List Char → Bool
  | [] => n.isEmpty
  | b :: bs => leadSeg n (b :: bs) || hasSub n bs

/-- Whitespace tokenizer: split on spaces, dropping empty tokens. -/
def splitToksAux : List Char → List Char → List (List Char)
  | [], acc => if acc.isEmpty then [] else [acc.reverse]
  | c :: rest, acc =>
    if c = ' ' then
      (if acc.isEmpty then splitToksAux rest [] else acc.reverse :: splitToksAux rest [])
    else splitToksAux rest (c :: acc)

def queryTokens (q : String) : List (List Char) :=
  splitToksAux (q.toList.map Char.toLower) []

/-- Title and author concatenated, the match target of spec 4.1. -/
def candChars (c : RawCandidate) : List Char :=
  normChars (c.title ++ " " ++ c.author.getD "")

def tokenIn (t : List Char) (c : RawCandidate) : Bool :=
  hasSub t (candChars c)

/-- Exclusion-marker list (spec 4.1 and `docs/devlog.md` P2: "[세트]",
"에디션"/"edition", "3종"). -/
def exclusionMarkers : List String := ["[세트]", "에디션", "edition", "3종"]

def isExcluded (c : RawCandidate) : Bool :=
  exclusionMarkers.any (fun m => hasSub (normChars m) (normChars c.title))

/-- Token-containment score: how many query tokens appear in the
candidate's normalized title+author text. -/
def score (toks : List (List Char)) (c : RawCandidate) : ℕ :=
  (toks.filter (fun t => tokenIn t c)).length

def containsAll (toks : List (List Char)) (c : RawCandidate) : Bool :=
  toks.all (fun t => tokenIn t c)

/-- Highest-scoring candidate, earliest first on ties. -/
def bestCandidate (toks : List (List Char)) : List RawCandidate → Option RawCandidate
  | [] => none
  | c :: cs =>
    match bestCandidate toks cs with
    | none => some c
    | some d => if score toks d > score toks c then some d else some c

/-- Modelled from the spec: the full matcher contract
`match(query, candidates) -> RawCandidate | NoMatch` of spec 4.1
(`none` plays the role of `NoMatch`). -/
def matchCandidates (q : String) (cs : List RawCandidate) : Option RawCandidate :=
  match bestCandidate (queryTokens q) (cs.filter (fun c => !isExcluded c)) with
  | none => none
  | some d => if containsAll (queryTokens q) d then some d else none

theorem bestCandidate_none_iff (toks : List (List Char)) (cs : List RawCandidate) :
    bestCandidate toks cs = none ↔ cs = [] := by
  cases cs with
  | nil => simp [bestCandidate]
  | cons a cs =>
    cases h : bestCandidate toks cs with
    | none => simp [bestCandidate, h]
    | some d =>
      simp only [bestCandidate, h]
      split <;> simp

theorem bestCandidate_spec (toks : List (List Char)) (cs : List RawCandidate)
    (c : RawCandidate) (h : bestCandidate toks cs = some c) :
    ∃ pre post, cs = pre ++ c :: post ∧ (∀ x ∈ pre, score toks x < score toks c) ∧
      (∀ x ∈ post, score toks x ≤ score toks c) := by
  induction cs generalizing c with
  | nil => exact absurd h (by simp [bestCandidate])
  | cons a cs ih =>
    cases hb : bestCandidate toks cs with
    | none =>
      simp only [bestCandidate, hb] at h
      cases h
      have hcs : cs = [] := (bestCandidate_none_iff toks cs).mp hb
      subst hcs
      exact ⟨[], [], rfl, by simp, by simp⟩
    | some d =>
      simp only [bestCandidate, hb] at h
      obtain ⟨pre, post, hdecomp, hpre, hpost⟩ := ih d hb
      by_cases hlt : score toks d > score toks a
      · rw [if_pos hlt] at h
        cases h
        refine ⟨a :: pre, post, by rw [hdecomp]; rfl, ?_, hpost⟩
        intro x hx
        rcases List.mem_cons.mp hx with hxa | hxp
        · exact hxa ▸ hlt
        · exact hpre x hxp
      · rw [if_neg hlt] at h
        cases h
        push_neg at hlt
        refine ⟨[], cs, rfl, by simp, ?_⟩
        intro x hx
        rw [hdecomp] at hx
        rcases List.mem_append.mp hx with hxp | hxr
        · exact le_of_lt (lt_of_lt_of_le (hpre x hxp) hlt)
        · rcases List.mem_cons.mp hxr with hxd | hxq
          · exact hxd ▸ hlt
          · exact le_trans (hpost x hxq) hlt

/-- The example candidates of the spec's matcher test case
(`docs/devlog.md`, 2026-02-04 매칭 로직 entry). -/
def exampleSetCandidate : RawCandidate :=
  ⟨"[국내도서] 최은영 3종 특별 한정 에디션", none, none, none, ""⟩

def exampleBookCandidate : RawCandidate :=
  ⟨"밝은 밤", none, none, none, ""⟩

def exampleBookCandidateWithAuthor : RawCandidate :=
  ⟨"밝은 밤", some "최은영", none, none, ""⟩

/-- C1 counterexample: on the candidate list exactly as the claim states it
(title strings only, no author data), the matcher returns `NoMatch`, not
"밝은 밤": the query token "최은영" is an author name and appears nowhere in
the candidate title "밝은 밤", so by the claim's own all-tokens threshold no
candidate qualifies. -/
theorem c1_matcher_counterexample :
    matchCandidates "밝은밤 최은영" [exampleSetCandidate, exampleBookCandidate] = none ∧
    matchCandidates "밝은밤 최은영" [exampleSetCandidate, exampleBookCandidate]
      ≠ some exampleBookCandidate := by
  refine ⟨by decide, by decide⟩

/-- C1 (amended): any candidate returned by the matcher carries no
exclusion marker and contains every query token; the returned candidate is
the earliest highest-scoring candidate among the non-excluded ones; if no
candidate contains all query tokens the matcher returns `NoMatch`; and the
spec's example query "밝은밤 최은영" selects the "밝은 밤" candidate once
that candidate carries its author "최은영" (matched over the title+author
concatenation of spec 4.1), the set/edition candidate being excluded. -/
theorem c1_matcher_spec (q : String) (cs : List RawCandidate) :
    (∀ c, matchCandidates q cs = some c →
      isExcluded c = false ∧ containsAll (queryTokens q) c = true) ∧
    (∀ c, matchCandidates q cs = some c →
      ∃ pre post, cs.filter (fun x => !isExcluded x) = pre ++ c :: post ∧
        ∀ x ∈ pre, score (queryTokens q) x < score (queryTokens q) c) ∧
    ((∀ c ∈ cs, containsAll (queryTokens q) c = false) → matchCandidates q cs = none) ∧
    matchCandidates "밝은밤 최은영" [exampleSetCandidate, exampleBookCandidateWithAuthor]
      = some exampleBookCandidateWithAuthor := by
  have hmem : ∀ c, matchCandidates q cs = some c →
      c ∈ cs.filter (fun x => !isExcluded x) ∧ containsAll (queryTokens q) c = true := by
    intro c h
    cases hb : bestCandidate (queryTokens q) (cs.filter (fun x => !isExcluded x)) with
    | none => simp [matchCandidates, hb] at h
    | some d =>
      simp only [matchCandidates, hb] at h
      by_cases hall : containsAll (queryTokens q) d = true
      · rw [if_pos hall] at h
        cases h
        obtain ⟨pre, post, hdecomp, -, -⟩ := bestCandidate_spec _ _ _ hb
        exact ⟨hdecomp ▸ List.mem_append_right pre (List.mem_cons_self _ _), hall⟩
      · rw [if_neg hall] at h
        cases h
  refine ⟨?_, ?_, ?_, by decide⟩
  · intro c h
    obtain ⟨hmf, hca⟩ := hmem c h
    have := List.mem_filter.mp hmf
    exact ⟨by simpa using this.2, hca⟩
  · intro c h
    cases hb : bestCandidate (queryTokens q) (cs.filter (fun x => !isExcluded x)) with
    | none => simp [matchCandidates, hb] at h
    | some d =>
      simp only [matchCandidates, hb] at h
      by_cases hall : containsAll (queryTokens q) d = true
      · rw [if_pos hall] at h
        cases h
        obtain ⟨pre, post, hdecomp, hpre, -⟩ := bestCandidate_spec _ _ _ hb
        exact ⟨pre, post, hdecomp, hpre⟩
      · rw [if_neg hall] at h
        cases h
  · intro hnone
    cases hres : matchCandidates q cs with
    | none => rfl
    | some c =>
      obtain ⟨hmf, hca⟩ := hmem c hres
      have hc : c ∈ cs := (List.mem_filter.mp hmf).1
      rw [hnone c hc] at hca
      cases hca

/-- Witness for `c1_matcher_spec` at the spec's own example: the selected
candidate "밝은 밤" (with author "최은영") carries no exclusion marker,
contains all query tokens, and is preceded by no higher-scoring eligible
candidate; and the no-qualifying-candidate case returns `NoMatch` on a
list whose only candidate lacks a query token. -/
theorem c1_matcher_spec_witness :
    (isExcluded exampleBookCandidateWithAuthor = false ∧
      containsAll (queryTokens "밝은밤 최은영") exampleBookCandidateWithAuthor = true) ∧
    matchCandidates "밝은밤 최은영" [exampleBookCandidate] = none := by
  constructor
  · exact (c1_matcher_spec "밝은밤 최은영"
      [exampleSetCandidate, exampleBookCandidateWithAuthor]).1
      exampleBookCandidateWithAuthor
      (c1_matcher_spec "밝은밤 최은영"
        [exampleSetCandidate, exampleBookCandidateWithAuthor]).2.2.2
  · exact (c1_matcher_spec "밝은밤 최은영" [exampleBookCandidate]).2.2.1
      (by decide)

/-! ## Crawl Orchestrator scheduling

Modelled from the spec: the crawler backend's `main.py` orchestrator is
not in the repository.  Spec 4.3/5 and the devlog entry "main.py 실행
순서 변경": adapters carry a static execution-group tag; all browser-based
adapters must reach a terminal state before any network-based adapter is
invoked (a full two-phase barrier); within a group adapters run
concurrently with no ordering guarantee, which the model expresses as a
nondeterministic small-step relation over per-adapter phases. -/

inductive ExecGroup where
  | browser
  | network
deriving DecidableEq, Repr

structure Adapter where
  id : String
  group : ExecGroup
deriving DecidableEq, Repr

inductive AdapterPhase where
  | idle
  | running
  | finished (o : CrawlOutcome)
deriving DecidableEq, Repr

def AdapterPhase.isTerminal : AdapterPhase → Bool
  | finished _ => true
  | idle => false
  | running => false

def updState (st : String → AdapterPhase) (key : String) (v : AdapterPhase) :
    String → AdapterPhase :=
  fun x => if x = key then v else st x

inductive OrchEvent where
  | invoke (id : String)
  | finish (id : String) (o : CrawlOutcome)
deriving DecidableEq, Repr

/-- Modelled from the spec: one scheduling step of the orchestrator.  An
idle adapter may be invoked at any time, except that a network-group
adapter may only be invoked once every browser-group adapter is terminal
(the hard cross-group barrier of spec 4.3); a running adapter may finish
with any terminal outcome at any time (no intra-group ordering). -/
inductive OrchStep (ads : List Adapter) :
    (String → AdapterPhase) → OrchEvent → (String → AdapterPhase) → Prop where
  | invoke (st : String → AdapterPhase) (a : Adapter) (ha : a ∈ ads)
      (hidle : st a.id = AdapterPhase.idle)
      (hbarrier : a.group = ExecGroup.network →
        ∀ b ∈ ads, b.group = ExecGroup.browser → (st b.id).isTerminal = true) :
      OrchStep ads st (OrchEvent.invoke a.id) (updState st a.id AdapterPhase.running)
  | finish (st : String → AdapterPhase) (a : Adapter) (ha : a ∈ ads) (o : CrawlOutcome)
      (hrun : st a.id = AdapterPhase.running) :
      OrchStep ads st (OrchEvent.finish a.id o) (updState st a.id (AdapterPhase.finished o))

inductive OrchRun (ads : List Adapter) :
    (String → AdapterPhase) → List OrchEvent → (String → AdapterPhase) → Prop where
  | nil (st : String → AdapterPhase) : OrchRun ads st [] st
  | cons {st st' st'' : String → AdapterPhase} {e : OrchEvent} {tr : List OrchEvent}
      (hstep : OrchStep ads st e st') (hrest : OrchRun ads st' tr st'') :
      OrchRun ads st (e :: tr) st''

def initPhase : String → AdapterPhase := fun _ => AdapterPhase.idle

theorem orchRun_append (ads : List Adapter) (l1 l2 : List OrchEvent) :
    ∀ {st st'' : String → AdapterPhase}, OrchRun ads st (l1 ++ l2) st'' →
      ∃ mid, OrchRun ads st l1 mid ∧ OrchRun ads mid l2 st'' := by
  induction l1 with
  | nil => exact fun h => ⟨_, OrchRun.nil _, h⟩
  | cons e l1 ih =>
    intro st st'' h
    cases h with
    | cons hstep hrest =>
      obtain ⟨mid, h1, h2⟩ := ih hrest
      exact ⟨mid, OrchRun.cons hstep h1, h2⟩

/-- In any run, an adapter id whose phase became terminal was finished by
some event of the trace. -/
theorem orchRun_terminal_finish (ads : List Adapter)
    {st st' : String → AdapterPhase} {tr : List OrchEvent}
    (h : OrchRun ads st tr st') :
    ∀ idStr, (st' idStr).isTerminal = true →
      (st idStr).isTerminal = true ∨ ∃ o, OrchEvent.finish idStr o ∈ tr := by
  induction h with
  | nil st => exact fun idStr hterm => Or.inl hterm
  | cons hstep hrest ih =>
    intro idStr hterm
    rcases ih idStr hterm with hmid | ⟨o, ho⟩
    · cases hstep with
      | invoke a ha hidle hbarrier =>
        by_cases hid : idStr = a.id
        · subst hid
          simp [updState, AdapterPhase.isTerminal] at hmid
        · left
          simp only [updState, if_neg hid] at hmid
          exact hmid
      | finish a ha o hrunst =>
        by_cases hid : idStr = a.id
        · exact Or.inr ⟨o, by rw [hid]; exact List.mem_cons_self _ _⟩
        · left
          simp only [updState, if_neg hid] at hmid
          exact hmid
    · exact Or.inr ⟨o, List.mem_cons_of_mem _ ho⟩

/-- Inversion of an invocation step: some registered adapter with that id
was idle and, if network-tagged, saw every browser adapter terminal. -/
theorem orchStep_invoke_inv {ads : List Adapter} {st st' : String → AdapterPhase}
    {idStr : String} (h : OrchStep ads st (OrchEvent.invoke idStr) st') :
    ∃ a, a ∈ ads ∧ a.id = idStr ∧ st a.id = AdapterPhase.idle ∧
      (a.group = ExecGroup.network →
        ∀ b ∈ ads, b.group = ExecGroup.browser → (st b.id).isTerminal = true) := by
  cases h with
  | invoke a ha hidle hbarrier => exact ⟨a, ha, rfl, hidle, hbarrier⟩

/-- C2: in every orchestration run from the initial state, every
browser-group adapter has reached a terminal state — witnessed by a finish
event with some outcome (success, no-match, failure, or timeout) strictly
earlier in the trace — before any network-group adapter is invoked. -/
theorem c2_orchestration_barrier (ads : List Adapter)
    (hnodup : (ads.map Adapter.id).Nodup)
    (a : Adapter) (ha : a ∈ ads) (hnet : a.group = ExecGroup.network)
    (pre post : List OrchEvent) (stF : String → AdapterPhase)
    (hrun : OrchRun ads initPhase (pre ++ OrchEvent.invoke a.id :: post) stF) :
    ∀ b ∈ ads, b.group = ExecGroup.browser → ∃ o, OrchEvent.finish b.id o ∈ pre := by
  intro b hb hbrowser
  obtain ⟨mid, hpre, hrest⟩ := orchRun_append ads pre (OrchEvent.invoke a.id :: post) hrun
  cases hrest with
  | cons hstep hrest2 =>
    obtain ⟨a', ha', heq, hidle, hbarrier⟩ := orchStep_invoke_inv hstep
    have haa : a' = a :=
      List.inj_on_of_nodup_map hnodup ha' ha heq
    have hterm : (mid b.id).isTerminal = true :=
      hbarrier (haa ▸ hnet) b hb hbrowser
    rcases orchRun_terminal_finish ads hpre b.id hterm with hinit | hfin
    · simp [initPhase, AdapterPhase.isTerminal] at hinit
    · exact hfin

def witnessBrowserAdapter : Adapter := ⟨"kyobo", ExecGroup.browser⟩

def witnessNetworkAdapter : Adapter := ⟨"yes24", ExecGroup.network⟩

def witnessAds : List Adapter := [witnessBrowserAdapter, witnessNetworkAdapter]

/-- Witness for `c2_orchestration_barrier`: the concrete run that invokes
the browser adapter "kyobo", finishes it with a no-match, then invokes the
network adapter "yes24"; the theorem yields the finish event for "kyobo"
inside the pre-invocation segment of this trace. -/
theorem c2_orchestration_barrier_witness :
    ∃ o, OrchEvent.finish "kyobo" o ∈
      [OrchEvent.invoke "kyobo", OrchEvent.finish "kyobo" CrawlOutcome.noMatch] := by
  have hstep1 : OrchStep witnessAds initPhase (OrchEvent.invoke "kyobo")
      (updState initPhase "kyobo" AdapterPhase.running) :=
    OrchStep.invoke initPhase witnessBrowserAdapter (by decide) rfl
      (fun hctr => absurd hctr (by decide))
  have hstep2 : OrchStep witnessAds (updState initPhase "kyobo" AdapterPhase.running)
      (OrchEvent.finish "kyobo" CrawlOutcome.noMatch)
      (updState (updState initPhase "kyobo" AdapterPhase.running) "kyobo"
        (AdapterPhase.finished CrawlOutcome.noMatch)) :=
    OrchStep.finish _ witnessBrowserAdapter (by decide) CrawlOutcome.noMatch rfl
  have hstep3 : OrchStep witnessAds
      (updState (updState initPhase "kyobo" AdapterPhase.running) "kyobo"
        (AdapterPhase.finished CrawlOutcome.noMatch))
      (OrchEvent.invoke "yes24")
      (updState (updState (updState initPhase "kyobo" AdapterPhase.running) "kyobo"
        (AdapterPhase.finished CrawlOutcome.noMatch)) "yes24" AdapterPhase.running) := by
    refine OrchStep.invoke _ witnessNetworkAdapter (by decide) rfl ?_
    intro hg b hb hbrowser
    fin_cases hb
    · rfl
    · exact absurd hbrowser (by decide)
  have hrun : OrchRun witnessAds initPhase
      ([OrchEvent.invoke "kyobo", OrchEvent.finish "kyobo" CrawlOutcome.noMatch] ++
        OrchEvent.invoke "yes24" :: []) _ :=
    OrchRun.cons hstep1 (OrchRun.cons hstep2 (OrchRun.cons hstep3 (OrchRun.nil _)))
  exact c2_orchestration_barrier witnessAds (by decide) witnessNetworkAdapter
    (by decide) rfl _ _ _ hrun witnessBrowserAdapter (by decide) rfl

/-! ## Request validation, Result Cache Gateway and stream protocol

Modelled from the spec: the crawler backend's API layer and cache gateway
are not in the repository (only the streaming client `web/src/lib/api.ts`
and the `supabase/migration.sql` schema are).  Spec section 6: a request
is `{query, platforms?, force_refresh?}`; the streamed response is zero or
more `platform_result` events followed by exactly one `done` event with a
`"cache"`/`"crawl"` source tag, or a single `error` event when the request
is structurally invalid (spec 7, `InvalidRequest`).  The platform registry
follows `PLATFORM_META` in `web/src/lib/api.ts`. -/

def registeredPlatforms : List String :=
  ["aladin", "kyobo", "yes24", "sarak", "watcha", "goodreads", "amazon", "librarything"]

structure Request where
  query : String
  platforms : Option (List String)
  force_refresh : Bool
deriving DecidableEq, Repr

/-- Query normalization for cache keys and matching: trimmed and
whitespace-collapsed (spec section 3, Query). -/
def normalizeQuery (q : String) : String :=
  String.intercalate " " ((splitToksAux q.toList []).map String.mk)

structure CacheEntry where
  summary : SearchSummary
  ratings : List PlatformRating
deriving DecidableEq, Repr

abbrev Cache := List (String × CacheEntry)

/-- Modelled from the spec: cache lookup keyed by the normalized query,
returning the most recent entry (spec 6, persisted schema: history is
appended, the lookup returns only the most recent). -/
def lookupCache (c : Cache) (q : String) : Option CacheEntry :=
  (c.find? (fun p => p.1 == normalizeQuery q)).map Prod.snd

/-- Modelled from the spec: storing a completed execution prepends a fresh
entry for the normalized key, superseding any prior entry for that key. -/
def storeCache (c : Cache) (q : String) (e : CacheEntry) : Cache :=
  (normalizeQuery q, e) :: c

/-- Modelled from the spec: `InvalidRequest` validation (spec 7): empty
query after trimming, empty platform selection, or an unknown platform id,
each rejected before any dispatch. -/
def validateRequest (req : Request) : Option String :=
  if normalizeQuery req.query = "" then some "empty query"
  else
    match req.platforms with
    | none => none
    | some ps =>
      if ps.isEmpty then some "empty platform selection"
      else if ps.all (fun p => registeredPlatforms.contains p) then none
      else some "unknown platform id"

inductive StreamEvent where
  | platformResult (r : PlatformRating)
  | done (summary : SearchSummary) (source : String)
  | errorEv (msg : String)
deriving DecidableEq, Repr

def selectedPlatforms (req : Request) : List String :=
  req.platforms.getD registeredPlatforms

structure EngineOutput where
  events : List StreamEvent
  cache : Cache
  dispatched : List String
deriving DecidableEq, Repr

/-- Modelled from the spec: one streamed search execution (spec 4.4 and 6).
`crawl` abstracts the orchestrator's output for this query.  An invalid
request yields a single error event and dispatches nothing; otherwise a
cache hit (unless `force_refresh`) replays the stored ratings and summary
with source "cache"; otherwise the orchestrator's ratings and summary are
streamed with source "crawl" and stored, fully replacing any prior entry. -/
def searchStream (cache : Cache) (req : Request) (crawl : CacheEntry) : EngineOutput :=
  match validateRequest req with
  | some msg => ⟨[StreamEvent.errorEv msg], cache, []⟩
  | none =>
    match (if req.force_refresh then none else lookupCache cache req.query) with
    | some entry =>
      ⟨entry.ratings.map StreamEvent.platformResult ++
        [StreamEvent.done entry.summary "cache"], cache, []⟩
    | none =>
      ⟨crawl.ratings.map StreamEvent.platformResult ++
        [StreamEvent.done crawl.summary "crawl"],
        storeCache cache req.query crawl, selectedPlatforms req⟩

/-- C5: every streamed response is either zero or more `platform_result`
events followed by exactly one `done` event tagged "cache" or "crawl", or
a single `error` event; an error event can only stand in place of the
whole stream, never after any `platform_result` event. -/
theorem c5_stream_protocol (cache : Cache) (req : Request) (crawl : CacheEntry) :
    ((∃ rs s src, (searchStream cache req crawl).events =
        List.map StreamEvent.platformResult rs ++ [StreamEvent.done s src] ∧
        (src = "cache" ∨ src = "crawl")) ∨
      (∃ msg, (searchStream cache req crawl).events = [StreamEvent.errorEv msg])) ∧
    (∀ msg, StreamEvent.errorEv msg ∈ (searchStream cache req crawl).events →
      ∀ r, StreamEvent.platformResult r ∉ (searchStream cache req crawl).events) := by
  cases hv : validateRequest req with
  | some msg =>
    simp only [searchStream, hv]
    constructor
    · exact Or.inr ⟨msg, rfl⟩
    · intro msg' hmem r
      simp
  | none =>
    cases hc : (if req.force_refresh then none else lookupCache cache req.query) with
    | some entry =>
      simp only [searchStream, hv, hc]
      constructor
      · exact Or.inl ⟨entry.ratings, entry.summary, "cache", rfl, Or.inl rfl⟩
      · intro msg hmem r
        exfalso
        rcases List.mem_append.mp hmem with hm | hm
        · obtain ⟨x, -, hx⟩ := List.mem_map.mp hm
          cases hx
        · rcases List.mem_cons.mp hm with hx | hx
          · cases hx
          · cases hx
    | none =>
      simp only [searchStream, hv, hc]
      constructor
      · exact Or.inl ⟨crawl.ratings, crawl.summary, "crawl", rfl, Or.inr rfl⟩
      · intro msg hmem r
        exfalso
        rcases List.mem_append.mp hmem with hm | hm
        · obtain ⟨x, -, hx⟩ := List.mem_map.mp hm
          cases hx
        · rcases List.mem_cons.mp hm with hx | hx
          · cases hx
          · cases hx

/-- Sample emitted ratings used by concrete witnesses. -/
def sampleRatingA : PlatformRating :=
  ⟨"kyobo", some (49/5), 10, some 8, 10, "밝은 밤", "https://kyobo.example", "2026-02-04"⟩

def sampleRatingB : PlatformRating :=
  ⟨"yes24", some 9, 10, some 9, 20, "밝은 밤", "https://yes24.example", "2026-02-04"⟩

def sampleEntry : CacheEntry :=
  ⟨⟨"밝은 밤", some (17/2), 30, 2⟩, [sampleRatingA, sampleRatingB]⟩

/-- Witness for `c5_stream_protocol`: for the structurally invalid empty
query the stream is a single error event, so no `platform_result` event
appears in it. -/
theorem c5_stream_protocol_witness :
    StreamEvent.errorEv "empty query" ∈
      (searchStream [] ⟨"", none, false⟩ sampleEntry).events ∧
    StreamEvent.platformResult sampleRatingA ∉
      (searchStream [] ⟨"", none, false⟩ sampleEntry).events := by
  have hmem : StreamEvent.errorEv "empty query" ∈
      (searchStream [] ⟨"", none, false⟩ sampleEntry).events := by decide
  exact ⟨hmem,
    (c5_stream_protocol [] ⟨"", none, false⟩ sampleEntry).2 "empty query" hmem sampleRatingA⟩

/-- C6: storing a Summary and looking up any query with the same
normalized form returns the stored entry verbatim; and a valid
`force_refresh` request always runs the Orchestrator (the streamed events
are the fresh crawl's, tagged "crawl", and its platforms are dispatched)
even if a cache entry exists, after which lookup returns the new entry —
a full replacement, never a merge with the prior entry. -/
theorem c6_cache_refresh (cache : Cache) (q q' : String) (e : CacheEntry)
    (req : Request) (crawl : CacheEntry)
    (hq : normalizeQuery q' = normalizeQuery q)
    (hforce : req.force_refresh = true) (hvalid : validateRequest req = none) :
    lookupCache (storeCache cache q e) q' = some e ∧
    (searchStream cache req crawl).events =
      crawl.ratings.map StreamEvent.platformResult ++
        [StreamEvent.done crawl.summary "crawl"] ∧
    (searchStream cache req crawl).dispatched = selectedPlatforms req ∧
    lookupCache (searchStream cache req crawl).cache req.query = some crawl := by
  refine ⟨?_, ?_, ?_, ?_⟩
  · simp [lookupCache, storeCache, List.find?, hq]
  · simp [searchStream, hvalid, hforce]
  · simp [searchStream, hvalid, hforce]
  · simp [searchStream, hvalid, hforce, lookupCache, storeCache, List.find?]

/-- Witness for `c6_cache_refresh`: a concrete store-then-lookup round
trip, and a concrete `force_refresh` request over a cache that already
holds a different entry for the same query: the fresh crawl is streamed
with source "crawl" and fully replaces the old entry on lookup. -/
theorem c6_cache_refresh_witness :
    lookupCache (storeCache [] "밝은 밤" sampleEntry) "밝은  밤" = some sampleEntry ∧
    lookupCache
        (searchStream (storeCache [] "밝은 밤" sampleEntry) ⟨"밝은 밤", none, true⟩
          ⟨⟨"밝은 밤", none, 0, 0⟩, []⟩).cache "밝은 밤" =
      some ⟨⟨"밝은 밤", none, 0, 0⟩, []⟩ := by
  have h1 := c6_cache_refresh [] "밝은 밤" "밝은  밤" sampleEntry
    ⟨"밝은 밤", none, true⟩ ⟨⟨"밝은 밤", none, 0, 0⟩, []⟩ (by decide) rfl (by decide)
  have h2 := c6_cache_refresh (storeCache [] "밝은 밤" sampleEntry) "밝은 밤" "밝은 밤"
    sampleEntry ⟨"밝은 밤", none, true⟩ ⟨⟨"밝은 밤", none, 0, 0⟩, []⟩ rfl rfl (by decide)
  exact ⟨h1.1, h2.2.2.2⟩

/-- C7: a request whose query is empty after trimming, whose platform
selection is empty, or which names an unregistered platform id is rejected
with an `InvalidRequest` error before any dispatch: no adapter is
dispatched, the cache is untouched, and no `platform_result` or `done`
event is streamed. -/
theorem c7_invalid_request (cache : Cache) (req : Request) (crawl : CacheEntry)
    (hbad : normalizeQuery req.query = "" ∨ req.platforms = some [] ∨
      (∃ ps p, req.platforms = some ps ∧ p ∈ ps ∧
        registeredPlatforms.contains p = false)) :
    ∃ msg, validateRequest req = some msg ∧
      (searchStream cache req crawl).events = [StreamEvent.errorEv msg] ∧
      (searchStream cache req crawl).dispatched = [] ∧
      (searchStream cache req crawl).cache = cache ∧
      (∀ r, StreamEvent.platformResult r ∉ (searchStream cache req crawl).events) ∧
      (∀ s src, StreamEvent.done s src ∉ (searchStream cache req crawl).events) := by
  have hv : ∃ msg, validateRequest req = some msg := by
    by_cases hq : normalizeQuery req.query = ""
    · exact ⟨"empty query", by simp [validateRequest, hq]⟩
    · rcases hbad with hbad | hbad | hbad
      · exact absurd hbad hq
      · exact ⟨"empty platform selection", by simp [validateRequest, hq, hbad]⟩
      · obtain ⟨ps, p, hps, hpmem, hpreg⟩ := hbad
        refine ⟨"unknown platform id", ?_⟩
        have hne : ps.isEmpty = false := by
          cases ps with
          | nil => cases hpmem
          | cons a l => rfl
        have hall : ps.all (fun x => registeredPlatforms.contains x) = false := by
          rcases hA : ps.all (fun x => registeredPlatforms.contains x) with _ | _
          · rfl
          · have := List.all_eq_true.mp hA p hpmem
            rw [hpreg] at this
            cases this
        simp [validateRequest, hq, hps, hne, hall]
        exact ⟨p, hpmem, by simpa using hpreg⟩
  obtain ⟨msg, hmsg⟩ := hv
  refine ⟨msg, hmsg, ?_, ?_, ?_, ?_, ?_⟩ <;> simp [searchStream, hmsg]

/-- Witness for `c7_invalid_request` at the three concrete invalid
requests: a whitespace-only query, an empty platform selection, and the
unregistered platform id "ridibooks"; each is rejected with a single
error event and dispatches nothing. -/
theorem c7_invalid_request_witness :
    (∃ msg, validateRequest ⟨"   ", none, false⟩ = some msg ∧
      (searchStream [] ⟨"   ", none, false⟩ sampleEntry).events
        = [StreamEvent.errorEv msg]) ∧
    (∃ msg, validateRequest ⟨"밝은 밤", some [], false⟩ = some msg ∧
      (searchStream [] ⟨"밝은 밤", some [], false⟩ sampleEntry).dispatched = []) ∧
    (∃ msg, validateRequest ⟨"밝은 밤", some ["ridibooks"], false⟩ = some msg ∧
      (searchStream [] ⟨"밝은 밤", some ["ridibooks"], false⟩ sampleEntry).cache = []) := by
  refine ⟨?_, ?_, ?_⟩
  · obtain ⟨msg, h1, h2, -⟩ :=
      c7_invalid_request [] ⟨"   ", none, false⟩ sampleEntry (Or.inl (by decide))
    exact ⟨msg, h1, h2⟩
  · obtain ⟨msg, h1, -, h3, -⟩ :=
      c7_invalid_request [] ⟨"밝은 밤", some [], false⟩ sampleEntry (Or.inr (Or.inl rfl))
    exact ⟨msg, h1, h3⟩
  · obtain ⟨msg, h1, -, -, h4, -⟩ :=
      c7_invalid_request [] ⟨"밝은 밤", some ["ridibooks"], false⟩ sampleEntry
        (Or.inr (Or.inr ⟨["ridibooks"], "ridibooks", rfl, by decide, by decide⟩))
    exact ⟨msg, h1, h4⟩

/-- Witness for `c4_summary_spec`: a run emitting two ratings (normalized
8 and 9, review counts 10 and 20) has average 17/2, 30 total reviews and
platform count 2; a run where every adapter failed, timed out or had no
match summarizes to `(None, 0, 0)`. -/
theorem c4_summary_spec_witness :
    (summarize "밝은 밤" [sampleRatingA, sampleRatingB]).avg_rating = some (17/2) ∧
    (summarize "밝은 밤" [sampleRatingA, sampleRatingB]).total_reviews = 30 ∧
    (summarize "밝은 밤" [sampleRatingA, sampleRatingB]).platform_count = 2 ∧
    summarize "밝은 밤"
        (([CrawlOutcome.failed, CrawlOutcome.noMatch,
          CrawlOutcome.timedOut]).filterMap emittedRating) =
      ⟨"밝은 밤", none, 0, 0⟩ := by
  have h := c4_summary_spec "밝은 밤" [sampleRatingA, sampleRatingB]
  refine ⟨?_, ?_, ?_, ?_⟩
  · have hvs : List.filterMap PlatformRating.normalized_rating [sampleRatingA, sampleRatingB]
        = [8, 9] := rfl
    have havg := h.2.2.2.1 (by rw [hvs]; simp)
    rw [havg, hvs]
    norm_num
  · rw [h.2.1]
    rfl
  · rw [h.1]
    rfl
  · refine (c4_summary_spec "밝은 밤" []).2.2.2.2 _ ?_
    intro o ho r
    fin_cases ho <;> simp

/-! ## Streaming client `searchBookStream` (`web/src/lib/api.ts`)

This is real repository source: the client reads the SSE body chunk by
chunk, splits the buffered text on newlines, keeps the last partial line
as the new buffer, and for each complete line updates the pending event
type on `"event: "` lines and dispatches `"data: "` lines: `done` payloads
to `onDone`, `description` payloads to `onDescription`, and everything
else — any other event type, including `error` — to `onResult`; payloads
that fail `JSON.parse` are skipped.  JavaScript string primitives
(`startsWith`, `slice`, `trim`, `split`) are embedded at character-list
level; `JSON.parse` is abstracted as a `parse : String → Option α`
parameter. -/

inductive ClientCallback (α : Type) where
  | onResult (v : α)
  | onDone (v : α)
  | onDescription (v : α)
  | onError (msg : String)
deriving DecidableEq, Repr

def strStartsWith (s pre : String) : Bool :=
  leadSeg pre.toList s.toList

def strDrop (s : String) (n : ℕ) : String :=
  String.mk (s.toList.drop n)

def strTrim (s : String) : String :=
  String.mk (((s.toList.dropWhile Char.isWhitespace).reverse.dropWhile
    Char.isWhitespace).reverse)

/-- JavaScript `split("\n")`: keeps empty segments. -/
def splitNlAux : List Char → List Char → List (List Char)
  | [], acc => [acc.reverse]
  | c :: rest, acc =>
    if c = '\n' then acc.reverse :: splitNlAux rest [] else splitNlAux rest (c :: acc)

def splitLines (s : String) : List String :=
  (splitNlAux s.toList []).map String.mk

/-- Dispatch of one parsed data payload, from the `if eventType === ...`
chain of `searchBookStream`. -/
def dispatchData {α : Type} (et : String) (v : α) : ClientCallback α :=
  if et = "done" then ClientCallback.onDone v
  else if et = "description" then ClientCallback.onDescription v
  else ClientCallback.onResult v

/-- The inner `for (const line of lines)` loop of `searchBookStream`: the
first argument is the pending event type (reset to "message" after each
data line). -/
def procLines {α : Type} (parse : String → Option α) :
    String → List String → List (ClientCallback α)
  | _, [] => []
  | et, l :: ls =>
    if strStartsWith l "event: " then procLines parse (strTrim (strDrop l 7)) ls
    else if strStartsWith l "data: " then
      (match parse (strDrop l 6) with
       | some v => [dispatchData et v]
       | none => []) ++ procLines parse "message" ls
    else procLines parse et ls

/-- The outer read loop of `searchBookStream`: each chunk is appended to
the buffer, the buffer is split on newlines, the last (possibly partial)
segment becomes the new buffer, and the complete lines are processed with
the event type reset to "message" at each chunk. -/
def procChunks {α : Type} (parse : String → Option α) :
    String → List String → List (ClientCallback α)
  | _, [] => []
  | buffer, c :: cs =>
    procLines parse "message" (splitLines (buffer ++ c)).dropLast ++
      procChunks parse ((splitLines (buffer ++ c)).getLast?.getD "") cs

theorem dispatchData_ne_onError {α : Type} (et : String) (v : α) (msg : String) :
    dispatchData et v ≠ ClientCallback.onError msg := by
  unfold dispatchData
  split_ifs <;> simp

theorem onError_not_procLines {α : Type} (parse : String → Option α) :
    ∀ (ls : List String) (et msg : String),
      ClientCallback.onError msg ∉ procLines parse et ls := by
  intro ls
  induction ls with
  | nil => intro et msg h; simp [procLines] at h
  | cons l ls ih =>
    intro et msg h
    simp only [procLines] at h
    split at h
    · exact ih _ _ h
    · split at h
      · rcases List.mem_append.mp h with hm | hm
        · cases hp : parse (strDrop l 6) with
          | none => rw [hp] at hm; cases hm
          | some v =>
            rw [hp] at hm
            have := List.mem_singleton.mp hm
            exact dispatchData_ne_onError _ _ _ this.symm
        · exact ih _ _ hm
      · exact ih _ _ h

/-- C8: in `searchBookStream`'s event loop the `onError` callback is never
invoked from a streamed event; a data line whose pending event type is
neither "done" nor "description" (in particular one of type "error") is
dispatched to `onResult`; and a data line whose payload fails to parse
contributes nothing, processing continuing with the event type reset. -/
theorem c8_client_stream {α : Type} (parse : String → Option α) (chunks : List String) :
    (∀ buf msg, ClientCallback.onError msg ∉ procChunks parse buf chunks) ∧
    (∀ et (v : α), et ≠ "done" → et ≠ "description" →
      dispatchData et v = ClientCallback.onResult v) ∧
    (∀ et l ls, strStartsWith l "event: " = false → strStartsWith l "data: " = true →
      parse (strDrop l 6) = none →
      procLines parse et (l :: ls) = procLines parse "message" ls) ∧
    (∀ et l ls v, strStartsWith l "event: " = false → strStartsWith l "data: " = true →
      parse (strDrop l 6) = some v →
      procLines parse et (l :: ls) = dispatchData et v :: procLines parse "message" ls) := by
  refine ⟨?_, ?_, ?_, ?_⟩
  · induction chunks with
    | nil => intro buf msg h; simp [procChunks] at h
    | cons c cs ih =>
      intro buf msg h
      rcases List.mem_append.mp h with hm | hm
      · exact onError_not_procLines parse _ _ _ hm
      · exact ih _ _ hm
  · intro et v h1 h2
    simp [dispatchData, h1, h2]
  · intro et l ls h1 h2 hp
    simp [procLines, h1, h2, hp]
  · intro et l ls v h1 h2 hp
    simp [procLines, h1, h2, hp]

/-- Witness for `c8_client_stream` with a concrete parse function: an
"error"-typed data line is dispatched to `onResult`, and an unparseable
data line is skipped. -/
theorem c8_client_stream_witness :
    dispatchData "error" (0 : ℕ) = ClientCallback.onResult 0 ∧
    procLines (fun s => if s = "ok" then some 0 else (none : Option ℕ))
        "message" ["data: bad"] = [] := by
  have h := c8_client_stream (fun s => if s = "ok" then some 0 else (none : Option ℕ)) []
  refine ⟨h.2.1 "error" 0 (by decide) (by decide), ?_⟩
  have h3 := h.2.2.1 "message" "data: bad" [] (by decide) (by decide) (by decide)
  rw [h3]
  rfl

/-! ## Rating bar width (`web/src/components` RatingCard)

Real repository source: `const barWidth = normalized ? (normalized / 10) *
100 : 0;` — JavaScript truthiness makes both `null` and `0` take the
`: 0` branch. -/

def barWidth (normalized : Option ℚ) : ℚ :=
  match normalized with
  | none => 0
  | some v => if v = 0 then 0 else (v / 10) * 100

/-- C9: the rating bar of a rendered Platform Rating has width
`(normalized_rating / 10) * 100` percent when the rating is truthy and `0`
otherwise, so a rating of exactly `0` renders with the same zero-width bar
as a missing rating. -/
theorem c9_rating_bar (r : PlatformRating) :
    (∀ v, r.normalized_rating = some v → v ≠ 0 →
      barWidth r.normalized_rating = (v / 10) * 100) ∧
    (r.normalized_rating = some 0 ∨ r.normalized_rating = none →
      barWidth r.normalized_rating = 0) ∧
    barWidth (some 0) = barWidth none := by
  refine ⟨?_, ?_, ?_⟩
  · intro v hv hnz
    rw [hv]
    simp [barWidth, hnz]
  · rintro (h | h) <;> rw [h] <;> simp [barWidth]
  · simp [barWidth]

/-- Witness for `c9_rating_bar`: the sample rating normalized to 8 renders
an 80%-wide bar, and the zero rating renders exactly like the missing
one. -/
theorem c9_rating_bar_witness :
    barWidth sampleRatingA.normalized_rating = 80 ∧ barWidth (some 0) = barWidth none := by
  have h := c9_rating_bar sampleRatingA
  constructor
  · have h8 := h.1 8 rfl (by norm_num)
    rw [h8]
    norm_num
  · exact h.2.2

/-! ## Display ordering under "rating_desc" (`web/src/app/page.tsx`)

Real repository source: `sortedRatings` copies the ratings and sorts with
the comparator that sends `null` normalized ratings to the back and
otherwise compares `b.normalized_rating - a.normalized_rating`.
JavaScript's stable `Array.prototype.sort` is embedded as a stable
insertion sort over the comparator. -/

def ratingDescCmp (a b : PlatformRating) : ℚ :=
  match a.normalized_rating with
  | none => 1
  | some av =>
    match b.normalized_rating with
    | none => -1
    | some bv => bv - av

def sortInsert {α : Type} (cmp : α → α → ℚ) (a : α) : List α → List α
  | [] => [a]
  | b :: bs => if cmp a b ≤ 0 then a :: b :: bs else b :: sortInsert cmp a bs

def stableSortBy {α : Type} (cmp : α → α → ℚ) (l : List α) : List α :=
  l.foldr (sortInsert cmp) []

def sortRatingsDesc (rs : List PlatformRating) : List PlatformRating :=
  stableSortBy ratingDescCmp rs

/-- The ordering the comparator establishes: anything after an absent
rating is absent, and present ratings are non-increasing. -/
def RatingOrder (a b : PlatformRating) : Prop :=
  (a.normalized_rating = none → b.normalized_rating = none) ∧
  (∀ x y, a.normalized_rating = some x → b.normalized_rating = some y → y ≤ x)

theorem ratingDescCmp_le {a b : PlatformRating} (h : ratingDescCmp a b ≤ 0) :
    RatingOrder a b := by
  cases ha : a.normalized_rating with
  | none =>
    rw [ratingDescCmp, ha] at h
    norm_num at h
  | some av =>
    cases hb : b.normalized_rating with
    | none =>
      constructor
      · intro h'
        rw [ha] at h'
        cases h'
      · intro x y hx hy
        rw [hb] at hy
        cases hy
    | some bv =>
      rw [ratingDescCmp, ha, hb] at h
      constructor
      · intro h'
        rw [ha] at h'
        cases h'
      · intro x y hx hy
        rw [ha] at hx
        rw [hb] at hy
        cases hx
        cases hy
        linarith [sub_nonpos.mp h]

theorem ratingDescCmp_gt {a b : PlatformRating} (h : ¬ratingDescCmp a b ≤ 0) :
    RatingOrder b a := by
  cases ha : a.normalized_rating with
  | none =>
    constructor
    · intro hbnone
      exact ha
    · intro x y hx hy
      rw [ha] at hy
      cases hy
  | some av =>
    cases hb : b.normalized_rating with
    | none =>
      rw [ratingDescCmp, ha, hb] at h
      norm_num at h
    | some bv =>
      rw [ratingDescCmp, ha, hb] at h
      have hlt : (0:ℚ) < bv - av := lt_of_not_le h
      constructor
      · intro h'
        rw [hb] at h'
        cases h'
      · intro x y hx hy
        rw [hb] at hx
        rw [ha] at hy
        cases hx
        cases hy
        linarith

theorem ratingOrder_trans (a b c : PlatformRating)
    (hab : RatingOrder a b) (hbc : RatingOrder b c) : RatingOrder a c := by
  obtain ⟨h1, h2⟩ := hab
  obtain ⟨h3, h4⟩ := hbc
  constructor
  · exact fun ha => h3 (h1 ha)
  · intro x z hx hz
    cases hb : b.normalized_rating with
    | none =>
      have := h3 hb
      rw [hz] at this
      cases this
    | some y => exact le_trans (h4 y z hb hz) (h2 x y hx hb)

theorem sortInsert_perm {α : Type} (cmp : α → α → ℚ) (a : α) (l : List α) :
    List.Perm (sortInsert cmp a l) (a :: l) := by
  induction l with
  | nil => rfl
  | cons b bs ih =>
    rw [sortInsert]
    split
    · rfl
    · exact List.Perm.trans (List.Perm.cons b ih) (List.Perm.swap a b bs)

theorem stableSortBy_perm {α : Type} (cmp : α → α → ℚ) (l : List α) :
    List.Perm (stableSortBy cmp l) l := by
  induction l with
  | nil => rfl
  | cons a l ih =>
    exact List.Perm.trans (sortInsert_perm cmp a (stableSortBy cmp l)) (List.Perm.cons a ih)

theorem sortInsert_pairwise {α : Type} {R : α → α → Prop} {cmp : α → α → ℚ}
    (hle : ∀ a b, cmp a b ≤ 0 → R a b) (hgt : ∀ a b, ¬cmp a b ≤ 0 → R b a)
    (htrans : ∀ a b c, R a b → R b c → R a c)
    (a : α) (l : List α) (hl : List.Pairwise R l) :
    List.Pairwise R (sortInsert cmp a l) := by
  induction l with
  | nil => exact List.pairwise_singleton R a
  | cons b bs ih =>
    obtain ⟨hb, hbs⟩ := List.pairwise_cons.mp hl
    rw [sortInsert]
    split
    · rename_i hc
      refine List.pairwise_cons.mpr ⟨?_, hl⟩
      intro x hx
      rcases List.mem_cons.mp hx with hxb | hxs
      · exact hxb ▸ hle a b hc
      · exact htrans a b x (hle a b hc) (hb x hxs)
    · rename_i hc
      refine List.pairwise_cons.mpr ⟨?_, ih hbs⟩
      intro x hx
      rcases List.mem_cons.mp ((sortInsert_perm cmp a bs).mem_iff.mp hx) with hxa | hxs
      · exact hxa ▸ hgt a b hc
      · exact hb x hxs

theorem stableSortBy_pairwise {α : Type} {R : α → α → Prop} {cmp : α → α → ℚ}
    (hle : ∀ a b, cmp a b ≤ 0 → R a b) (hgt : ∀ a b, ¬cmp a b ≤ 0 → R b a)
    (htrans : ∀ a b c, R a b → R b c → R a c) (l : List α) :
    List.Pairwise R (stableSortBy cmp l) := by
  induction l with
  | nil => exact List.Pairwise.nil
  | cons a l ih => exact sortInsert_pairwise hle hgt htrans a _ ih

/-- C10: the "rating_desc" display ordering is a permutation of the input
ratings in which every element with a present normalized rating precedes
every element with an absent one, and the present ratings appear in
non-increasing order. -/
theorem c10_rating_desc_sort (rs : List PlatformRating) :
    List.Perm (sortRatingsDesc rs) rs ∧
    List.Pairwise RatingOrder (sortRatingsDesc rs) := by
  constructor
  · exact stableSortBy_perm ratingDescCmp rs
  · exact stableSortBy_pairwise (fun a b h => ratingDescCmp_le h)
      (fun a b h => ratingDescCmp_gt h) ratingOrder_trans rs

/-- Witness for `c10_rating_desc_sort` at a concrete ratings list. -/
theorem c10_rating_desc_sort_witness :
    List.Perm (sortRatingsDesc [sampleRatingA, sampleRatingB]) [sampleRatingA, sampleRatingB] ∧
    List.Pairwise RatingOrder (sortRatingsDesc [sampleRatingA, sampleRatingB]) :=
  c10_rating_desc_sort [sampleRatingA, sampleRatingB]

end BookCrawl
